import Mathlib

/-!
Verification of the OpenQuest RAG engine.

This file gives a shallow embedding, in Lean 4, of the retrieval, reranking,
embedding and vector-store components of the OpenQuest repository
(apps/api/src/rag/...), and proves the specified contracts about them.

Conventions of the embedding:
- JavaScript numbers that carry similarity scores and boosts are modelled as
  rationals (ℚ).  The only score arithmetic the code performs is addition,
  subtraction, `min` and comparison of the literals 0.08 and 0.16, for which
  IEEE doubles behave exactly like the rationals 8/100 and 16/100
  (0.16 is exactly twice the double 0.08, and 0.08 + 0.08 is exact).
- External I/O (the Postgres vector search, the Gemini HTTP API, the local
  Xenova model) is modelled by explicit oracle parameters: the database is a
  list of stored rows, the pgvector cosine-distance operator is an arbitrary
  function, and the Gemini service is a function from the call counter and the
  request batch to a response.  The call counter makes the sequence of
  sequential HTTP round-trips observable.
- `ES2019 Array.prototype.sort` is stable; a comparator of the form
  `(a, b) => key(b) - key(a)` therefore produces exactly the stable descending
  insertion sort `sortDescBy key` defined below.
- Wall-clock fields (`durationMs`, `embeddedAt`) are not modelled.
-/

namespace OpenQuest

/-! ### Definitions -/

-- ═══════════════════════════════════════════════════════════════════════════
-- Generic stable sorting (model of ES2019 stable Array.prototype.sort with a
-- numeric key compared descending)
-- ═══════════════════════════════════════════════════════════════════════════

/-- Insert `x` into `l` in front of the first element whose key is ≤ `key x`.
When `l` is sorted descending by `key`, this keeps it sorted, and an element
inserted from the left of the original list lands before elements with an
equal key, which is exactly stability. -/
def insertDescBy {α : Type} (key : α → ℚ) (x : α) : List α → List α
  | [] => [x]
  | y :: ys => if key x < key y then y :: insertDescBy key x ys else x :: y :: ys

/-- Stable sort, descending by `key`. -/
def sortDescBy {α : Type} (key : α → ℚ) : List α → List α
  | [] => []
  | x :: xs => insertDescBy key x (sortDescBy key xs)

namespace Retriever

/-- Constant DEFAULT_TOP_K of retriever.ts. -/
def DEFAULT_TOP_K : Nat := 8

/-- Constant DEFAULT_CANDIDATE_MULTIPLIER of retriever.ts. -/
def DEFAULT_CANDIDATE_MULTIPLIER : Nat := 3

/-- Constant DEFAULT_MIN_SCORE = 0.3 of retriever.ts. -/
def DEFAULT_MIN_SCORE : ℚ := 3 / 10

/-- Constant PROXIMITY_BOOST = 0.08 of retriever.ts. -/
def PROXIMITY_BOOST : ℚ := 8 / 100

/-- Constant MAX_PROXIMITY_BOOST_PER_FILE = 0.16 of retriever.ts. -/
def MAX_PROXIMITY_BOOST_PER_FILE : ℚ := 16 / 100

/-- A row of the `code_chunks` table (persisted state of §6 of the spec),
as seen by the vector search.  The embedding is kept abstract as a list of
rationals; the cosine-distance operator over it is a parameter below. -/
structure StoredChunk where
  id : String
  repoId : String
  filePath : String
  language : String
  content : String
  startLine : Int
  endLine : Int
  symbolName : Option String
  embedding : List ℚ
deriving DecidableEq

/-- Interface RawCandidate of retriever.ts: a row as returned by the
similarity search, scored. -/
structure RawCandidate where
  id : String
  filePath : String
  language : String
  content : String
  startLine : Int
  endLine : Int
  symbolName : Option String
  vectorScore : ℚ
deriving DecidableEq

/-- Interface RetrievedChunk of retriever.ts: a candidate after reranking. -/
structure RetrievedChunk where
  id : String
  filePath : String
  language : String
  content : String
  startLine : Int
  endLine : Int
  symbolName : Option String
  score : ℚ
  vectorScore : ℚ
  proximityBoost : ℚ
deriving DecidableEq

/-- Interface RetrievalOptions of retriever.ts.  Optional fields are `Option`;
`none` models an absent property, resolved by `??` defaults in `retrieve`. -/
structure RetrievalOptions where
  repoId : String
  topK : Option Nat := none
  candidateMultiplier : Option Nat := none
  minScore : Option ℚ := none
  fileFilter : Option (List String) := none

/-- Interface RetrievalResult of retriever.ts (the wall-clock `durationMs`
field is not modelled). -/
structure RetrievalResult where
  query : String
  repoId : String
  chunks : List RetrievedChunk
  totalCandidates : Nat
deriving DecidableEq

/-- The similarity score the SQL of `vectorSearch` computes for a row:
`1 - (embedding <=> $1::vector)`, with the pgvector cosine-distance operator
`<=>` abstracted as `dist`. -/
def rowScore (dist : List ℚ → List ℚ → ℚ) (queryVector : List ℚ) (r : StoredChunk) : ℚ :=
  1 - dist r.embedding queryVector

/-- The optional `file_path = ANY(...)` clause of `vectorSearch`: it is added
to the query only when `fileFilter` is present and non-empty. -/
def fileFilterOk (fileFilter : Option (List String)) (path : String) : Bool :=
  match fileFilter with
  | some fs => fs.isEmpty || fs.contains path
  | none => true

/-- Conversion of a selected row into a RawCandidate, with the computed
similarity as `vectorScore` (the SELECT list of `vectorSearch`). -/
def toCandidate (dist : List ℚ → List ℚ → ℚ) (queryVector : List ℚ)
    (r : StoredChunk) : RawCandidate :=
  { id := r.id
    filePath := r.filePath
    language := r.language
    content := r.content
    startLine := r.startLine
    endLine := r.endLine
    symbolName := r.symbolName
    vectorScore := rowScore dist queryVector r }

/-- Function `vectorSearch` of retriever.ts.  The SQL query is modelled over a
list `table` of rows: rows of the repo whose similarity reaches `minScore`
(and that pass the optional file filter) are selected, ordered by distance
ascending — equivalently by the selected similarity `1 - distance`
descending — and limited to `limit` rows.  SQL leaves the relative order of
distance ties unspecified; the model determinizes it stably. -/
def vectorSearch (dist : List ℚ → List ℚ → ℚ) (queryVector : List ℚ)
    (table : List StoredChunk) (repoId : String) (limit : Nat) (minScore : ℚ)
    (fileFilter : Option (List String)) : List RawCandidate :=
  let hits := table.filter fun r =>
    decide (r.repoId = repoId) && decide (minScore ≤ rowScore dist queryVector r) &&
      fileFilterOk fileFilter r.filePath
  ((sortDescBy (rowScore dist queryVector) hits).map (toCandidate dist queryVector)).take limit

/-- Pass 1 of `rerankByFileProximity`: the anchor-file set, collected from the
first `ANCHOR_COUNT = min(3, |candidates|)` candidates (`slice(0, n)` is
`take n`, and `take (min 3 len)` is `take 3`).  Membership in the list models
membership in the JS `Set`. -/
def anchorFiles (candidates : List RawCandidate) : List String :=
  (candidates.take 3).map (·.filePath)

/-- The RetrievedChunk built for one candidate in pass 2 of
`rerankByFileProximity`. -/
def mkScored (c : RawCandidate) (proximityBoost : ℚ) : RetrievedChunk :=
  { id := c.id
    filePath := c.filePath
    language := c.language
    content := c.content
    startLine := c.startLine
    endLine := c.endLine
    symbolName := c.symbolName
    vectorScore := c.vectorScore
    proximityBoost := proximityBoost
    score := c.vectorScore + proximityBoost }

/-- The boost one candidate receives in pass 2 of `rerankByFileProximity`,
given the per-file tally so far (`boostApplied`, the JS `Map` modelled as a
total function that is 0 outside its keys): a candidate in an anchor file
whose tally is still below the cap gets `min(PROXIMITY_BOOST, cap - tally)`;
everyone else gets 0. -/
def boostAmount (anchors : List String) (boostApplied : String → ℚ)
    (c : RawCandidate) : ℚ :=
  if c.filePath ∈ anchors then
    if boostApplied c.filePath < MAX_PROXIMITY_BOOST_PER_FILE then
      min PROXIMITY_BOOST (MAX_PROXIMITY_BOOST_PER_FILE - boostApplied c.filePath)
    else 0
  else 0

/-- The tally update `boostApplied.set(file, alreadyBoosted + b)`.  The source
skips the update when no boost was applied, which coincides with adding 0. -/
def bumpTally (boostApplied : String → ℚ) (path : String) (b : ℚ) : String → ℚ :=
  fun f => if f = path then boostApplied path + b else boostApplied f

/-- Pass 2 of `rerankByFileProximity`: walk the candidates in order, assign
each its boost and thread the per-file tally. -/
def boostPass (anchors : List String) (boostApplied : String → ℚ) :
    List RawCandidate → List RetrievedChunk
  | [] => []
  | c :: rest =>
    mkScored c (boostAmount anchors boostApplied c) ::
      boostPass anchors
        (bumpTally boostApplied c.filePath (boostAmount anchors boostApplied c)) rest

/-- Function `rerankByFileProximity` of retriever.ts: anchor collection, boost
pass, then stable sort by final score descending and `slice(0, topK)`. -/
def rerankByFileProximity (candidates : List RawCandidate) (topK : Nat) :
    List RetrievedChunk :=
  if candidates.isEmpty then []
  else
    (sortDescBy (·.score) (boostPass (anchorFiles candidates) (fun _ => 0) candidates)).take topK

/-- Function `retrieve` of retriever.ts.  The awaited `embedQuery(query)`
result is the `queryVector` parameter (the query-embedding path is modelled
separately under `QueryEmbedder`); the database is the `table` parameter and
the pgvector distance operator is `dist`. -/
def retrieve (dist : List ℚ → List ℚ → ℚ) (table : List StoredChunk)
    (queryVector : List ℚ) (query : String) (options : RetrievalOptions) :
    RetrievalResult :=
  let topK := options.topK.getD DEFAULT_TOP_K
  let candidateCount := topK * (options.candidateMultiplier.getD DEFAULT_CANDIDATE_MULTIPLIER)
  let minScore := options.minScore.getD DEFAULT_MIN_SCORE
  let candidates :=
    vectorSearch dist queryVector table options.repoId candidateCount minScore options.fileFilter
  { query := query
    repoId := options.repoId
    chunks := rerankByFileProximity candidates topK
    totalCandidates := candidates.length }

/-- Invariant on the per-file boost tally: every value is 0, one boost, or at
least the cap. -/
def BoostTally (boostApplied : String → ℚ) : Prop :=
  ∀ g, boostApplied g = 0 ∨ boostApplied g = PROXIMITY_BOOST ∨
    MAX_PROXIMITY_BOOST_PER_FILE ≤ boostApplied g

/-- The total proximity boost that a retrieval result assigns to the chunks of
one file. -/
def fileBoostSum (f : String) (l : List RetrievedChunk) : ℚ :=
  ((l.filter fun c => decide (c.filePath = f)).map (·.proximityBoost)).sum

-- Concrete sample data exercising the retriever theorems.

/-- Sample distance oracle: constant distance 1/2, so every row scores 1/2. -/
def sampleDist : List ℚ → List ℚ → ℚ := fun _ _ => 1 / 2

/-- Sample stored row in repo "owner/repo". -/
def sampleRow : StoredChunk :=
  { id := "c1", repoId := "owner/repo", filePath := "a.ts", language := "typescript"
    content := "code", startLine := 1, endLine := 2, symbolName := none, embedding := [1] }

/-- Sample retrieval options: all defaults. -/
def sampleOptions : RetrievalOptions := { repoId := "owner/repo" }

/-- The chunk the sample retrieval returns: vectorScore 1/2, boost 0.08. -/
def sampleRetrieved : RetrievedChunk :=
  { id := "c1", filePath := "a.ts", language := "typescript", content := "code"
    startLine := 1, endLine := 2, symbolName := none
    score := 29 / 50, vectorScore := 1 / 2, proximityBoost := 2 / 25 }

/-- Helper to build a sample candidate. -/
def mkCand (i f : String) (vs : ℚ) : RawCandidate :=
  { id := i, filePath := f, language := "ts", content := "c"
    startLine := 1, endLine := 2, symbolName := none, vectorScore := vs }

/-- Three candidates from the same file: the first two get 0.08 each, the
third hits the per-file cap. -/
def sampleCands : List RawCandidate :=
  [mkCand "1" "a.ts" (9/10), mkCand "2" "a.ts" (4/5), mkCand "3" "a.ts" (7/10)]

end Retriever

namespace EmbeddingEngine

/-- A CodeChunk as consumed by the embedding engine (type imported from
../ingestion/astChunker; the fields below are the ones the engine reads). -/
structure CodeChunk where
  id : String
  repoId : String
  filePath : String
  symbolName : Option String
  startLine : Int
  endLine : Int
  content : String
  language : String
deriving DecidableEq

/-- Constant GEMINI_BATCH_SIZE = 100 of embeddingEngine.ts. -/
def GEMINI_BATCH_SIZE : Nat := 100

/-- Constant GEMINI_EMBEDDING_MODEL of embeddingEngine.ts. -/
def GEMINI_EMBEDDING_MODEL : String := "gemini-embedding-001"

/-- Constant GEMINI_EMBEDDING_DIM = 768 of embeddingEngine.ts. -/
def GEMINI_EMBEDDING_DIM : Nat := 768

/-- Constant TASK_TYPE_DOCUMENT of embeddingEngine.ts. -/
def TASK_TYPE_DOCUMENT : String := "RETRIEVAL_DOCUMENT"

/-- Function `buildEmbedText` of embeddingEngine.ts: a grounding header
(file path, symbol if any, language) followed by the chunk content.  The JS
truth test on `chunk.symbolName` drops both a missing and an empty symbol. -/
def buildEmbedText (chunk : CodeChunk) : String :=
  let symbolPart : Option String :=
    match chunk.symbolName with
    | some s => if s = "" then none else some ("Symbol: " ++ s)
    | none => none
  let header := String.intercalate "\n"
    (["File: " ++ chunk.filePath].append
      (symbolPart.toList.append ["Language: " ++ chunk.language]))
  header ++ "\n\n" ++ chunk.content

/-- One entry of the `requests` array of the batchEmbedContents request body
built by `callGeminiBatchEmbed` (also the body shape of the single
embedContent request of queryEmbedder.ts). -/
structure EmbedRequest where
  model : String
  text : String
  taskType : String
  outputDimensionality : Nat
deriving DecidableEq

/-- The request array `callGeminiBatchEmbed` builds for a batch of chunks:
one entry per chunk, in order, each tagged TASK_TYPE_DOCUMENT with
outputDimensionality 768. -/
def geminiBatchRequests (chunks : List CodeChunk) : List EmbedRequest :=
  chunks.map fun chunk =>
    { model := "models/" ++ GEMINI_EMBEDDING_MODEL
      text := buildEmbedText chunk
      taskType := TASK_TYPE_DOCUMENT
      outputDimensionality := 768 }

/-- What one round-trip to the Gemini batchEmbedContents endpoint can yield:
a non-ok HTTP response, or a parsed JSON body whose `embeddings` field is
either missing (`none`) or a list of vectors. -/
inductive GeminiResponse where
  | httpError (status : Nat) (body : String)
  | success (embeddings : Option (List (List ℚ)))

/-- The Gemini service as seen by the engine: a response for each round-trip,
indexed by a global call counter (so a later call may answer differently)
and by the request batch sent. -/
def GeminiService : Type := Nat → List EmbedRequest → GeminiResponse

/-- Function `callGeminiBatchEmbed` of embeddingEngine.ts: build the request
array, make one service call, fail on a non-ok response, fail when the number
of returned embeddings differs from the number of chunks, otherwise return
the vectors in order.  No retry of any kind is performed. -/
def callGeminiBatchEmbed (service : GeminiService) (callIdx : Nat)
    (chunks : List CodeChunk) : Except String (List (List ℚ)) :=
  match service callIdx (geminiBatchRequests chunks) with
  | .httpError status body =>
    .error ("Gemini embedding API error " ++ toString status ++ ": " ++ body)
  | .success none =>
    .error ("Gemini returned 0 embeddings for " ++ toString chunks.length ++ " chunks")
  | .success (some embeddings) =>
    if embeddings.length ≠ chunks.length then
      .error ("Gemini returned " ++ toString embeddings.length ++ " embeddings for " ++
        toString chunks.length ++ " chunks")
    else
      .ok embeddings

/-- Interface EmbeddedChunk of embeddingEngine.ts (the wall-clock `embeddedAt`
field is not modelled). -/
structure EmbeddedChunk where
  chunk : CodeChunk
  embedding : List ℚ
deriving DecidableEq

/-- An observable step of `embedWithGemini`: one HTTP round-trip carrying a
request batch, or one `sleep(ms)` pause. -/
inductive EmbedEvent where
  | apiCall (requests : List EmbedRequest)
  | sleep (ms : Nat)
deriving DecidableEq

def EmbedEvent.isCall : EmbedEvent → Bool
  | .apiCall _ => true
  | .sleep _ => false

/-- Function `embedWithGemini` of embeddingEngine.ts, with its I/O behaviour
made observable: the loop takes the chunks 100 at a time, makes exactly one
service call per batch (the `await` sequences the calls; the call counter
records their order), sleeps 200 ms after a batch only when chunks remain
(`i + GEMINI_BATCH_SIZE < chunks.length`), and accumulates one EmbeddedChunk
per chunk in order.  A thrown error aborts the loop at once, so the result is
either the full list or an error with no partial embeddings. -/
def embedWithGemini (service : GeminiService) :
    List CodeChunk → Nat → List EmbedEvent × Except String (List EmbeddedChunk)
  | [], _ => ([], .ok [])
  | c :: cs, callIdx =>
    match callGeminiBatchEmbed service callIdx ((c :: cs).take GEMINI_BATCH_SIZE) with
    | .error e =>
      ([.apiCall (geminiBatchRequests ((c :: cs).take GEMINI_BATCH_SIZE))], .error e)
    | .ok vectors =>
      if (cs.drop (GEMINI_BATCH_SIZE - 1)).isEmpty then
        ([.apiCall (geminiBatchRequests ((c :: cs).take GEMINI_BATCH_SIZE))],
          .ok (List.zipWith EmbeddedChunk.mk ((c :: cs).take GEMINI_BATCH_SIZE) vectors))
      else
        match embedWithGemini service (cs.drop (GEMINI_BATCH_SIZE - 1)) (callIdx + 1) with
        | (tailTrace, .error e) =>
          (.apiCall (geminiBatchRequests ((c :: cs).take GEMINI_BATCH_SIZE)) ::
            .sleep 200 :: tailTrace, .error e)
        | (tailTrace, .ok tail) =>
          (.apiCall (geminiBatchRequests ((c :: cs).take GEMINI_BATCH_SIZE)) ::
            .sleep 200 :: tailTrace,
            .ok (List.zipWith EmbeddedChunk.mk ((c :: cs).take GEMINI_BATCH_SIZE) vectors ++ tail))
termination_by l _ => l.length
decreasing_by
  simp only [List.length_drop, List.length_cons, GEMINI_BATCH_SIZE]
  omega

/-- Function `embedWithXenova` of embeddingEngine.ts: the local fallback runs
the model (here the oracle `xenova`) over `buildEmbedText` of each chunk, one
at a time, in order.  The dynamic-import failure path throws before any chunk
is processed; a run with the model available is modelled. -/
def embedWithXenova (xenova : String → List ℚ) (chunks : List CodeChunk) :
    List EmbeddedChunk :=
  chunks.map fun chunk => ⟨chunk, xenova (buildEmbedText chunk)⟩

/-- Interface EmbeddingResult of embeddingEngine.ts (token estimate and
wall-clock duration not modelled). -/
structure EmbeddingResult where
  embedded : List EmbeddedChunk
  model : String
deriving DecidableEq

/-- Function `embedChunks` of embeddingEngine.ts: empty input short-circuits;
with an API key the Gemini path is used (its thrown error propagates),
otherwise the Xenova fallback. -/
def embedChunks (apiKey : Option String) (service : GeminiService)
    (xenova : String → List ℚ) (chunks : List CodeChunk) :
    Except String EmbeddingResult :=
  if chunks.isEmpty then
    .ok ⟨[], GEMINI_EMBEDDING_MODEL⟩
  else
    match apiKey with
    | some _ =>
      match (embedWithGemini service chunks 0).2 with
      | .error e => .error e
      | .ok embedded => .ok ⟨embedded, GEMINI_EMBEDDING_MODEL⟩
    | none => .ok ⟨embedWithXenova xenova chunks, "Xenova/all-MiniLM-L6-v2"⟩

/-- Sample chunk fed to the embedding engine in witnesses. -/
def wChunk : CodeChunk :=
  { id := "c1", repoId := "owner/repo", filePath := "a.ts", symbolName := none
    startLine := 1, endLine := 2, content := "code", language := "ts" }

/-- A service that always answers with the right number of embeddings, each a
1-dimensional vector. -/
def wOkService : GeminiService :=
  fun _ reqs => .success (some (reqs.map fun _ => [(1:ℚ)]))

/-- A local fallback model producing 1-dimensional vectors. -/
def wXenova : String → List ℚ := fun _ => [1]

/-- The request `geminiBatchRequests` builds for `wChunk`. -/
def wDocRequest : EmbedRequest :=
  { model := "models/" ++ GEMINI_EMBEDDING_MODEL
    text := buildEmbedText wChunk
    taskType := TASK_TYPE_DOCUMENT
    outputDimensionality := 768 }

/-- A service whose first round-trip fails with HTTP 500 and whose every later
round-trip would succeed. -/
def wFlakyService : GeminiService := fun callIdx reqs =>
  if callIdx = 0 then .httpError 500 "Internal Server Error"
  else .success (some (reqs.map fun _ => [(1:ℚ)]))

/-- A service that always fails with HTTP 500. -/
def wFailService : GeminiService := fun _ _ => .httpError 500 "boom"

/-- A service answering zero embeddings for every batch. -/
def wBadCountService : GeminiService := fun _ _ => .success (some [])

end EmbeddingEngine

namespace QueryEmbedder

/-- Constant GEMINI_EMBEDDING_MODEL of queryEmbedder.ts. -/
def GEMINI_EMBEDDING_MODEL : String := "gemini-embedding-001"

/-- Constant TASK_TYPE_QUERY of queryEmbedder.ts. -/
def TASK_TYPE_QUERY : String := "RETRIEVAL_QUERY"

/-- Exported constant GEMINI_EMBEDDING_DIM = 768 of queryEmbedder.ts. -/
def GEMINI_EMBEDDING_DIM : Nat := 768

/-- The embedContent request body `embedQueryWithGemini` sends: the raw query
text tagged TASK_TYPE_QUERY with outputDimensionality 768. -/
def geminiQueryRequest (query : String) : EmbeddingEngine.EmbedRequest :=
  { model := "models/" ++ GEMINI_EMBEDDING_MODEL
    text := query
    taskType := TASK_TYPE_QUERY
    outputDimensionality := 768 }

/-- The Gemini service as seen by the query embedder: one response per
embedContent request — an error body for a non-ok response, or the
`embedding.values` vector. -/
def QueryService : Type := EmbeddingEngine.EmbedRequest → Except String (List ℚ)

/-- Function `embedQueryWithGemini` of queryEmbedder.ts: one service call; a
non-ok response throws, otherwise the returned vector is passed through with
no validation. -/
def embedQueryWithGemini (service : QueryService) (query : String) :
    Except String (List ℚ) :=
  match service (geminiQueryRequest query) with
  | .error e => .error ("Gemini query embedding failed " ++ e)
  | .ok values => .ok values

/-- Function `embedQueryWithXenova` of queryEmbedder.ts: when the local model
is importable (`some model`), its output vector is returned unchanged — in
particular its length is never compared against GEMINI_EMBEDDING_DIM;
when the import fails, the documented error is thrown. -/
def embedQueryWithXenova (xenova : Option (String → List ℚ)) (query : String) :
    Except String (List ℚ) :=
  match xenova with
  | some model => .ok (model query)
  | none =>
    .error "[QueryEmbedder] No GEMINI_API_KEY set and @xenova/transformers not installed."

/-- Function `embedQuery` of queryEmbedder.ts: the Gemini path when
GEMINI_API_KEY is set, else the Xenova fallback. -/
def embedQuery (apiKey : Option String) (service : QueryService)
    (xenova : Option (String → List ℚ)) (query : String) : Except String (List ℚ) :=
  match apiKey with
  | some _ => embedQueryWithGemini service query
  | none => embedQueryWithXenova xenova query

/-- A query service answering the empty vector (never consulted here). -/
def wQueryService : QueryService := fun _ => .ok []

end QueryEmbedder

namespace VectorStoreWriter

/-- Status of a repository index record (spec §3). -/
inductive IndexStatus where
  | pending
  | indexing
  | ready
  | failed
deriving DecidableEq

/-- Modelled from the spec: the `repo_index` record of one repository (spec
§3 and §6; `writeToVectorStore` of vectorStoreWriter.ts is not among the
available sources — only its caller in the test script testRag.ts is). -/
structure RepoIndexRecord where
  commitHash : Option String
  embeddingModel : String
  status : IndexStatus
  chunkCount : Nat
deriving DecidableEq

/-- A stored chunk row keyed by (filePath, chunkIndex) (spec §3). -/
structure ChunkRow where
  filePath : String
  chunkIndex : Nat
  content : String
  embedding : List ℚ
deriving DecidableEq

/-- The per-repository slice of the vector store: the index record (if any)
and the chunk rows. -/
structure VectorStoreState where
  indexRecord : Option RepoIndexRecord
  chunks : List ChunkRow
deriving DecidableEq

/-- The strategy a write reports (spec §4.5). -/
inductive WriteStrategy where
  | skipped
  | upsert
  | fullReindex
deriving DecidableEq

/-- Modelled from the spec: `writeToVectorStore` of vectorStoreWriter.ts
(file absent from the sources), decision algorithm of spec §4.5 scoped to one
repository:
1. a prior index with the same commitHash, the same model and status ready
   returns `skipped` with no writes;
2. else a prior index with a different model triggers `full-reindex`
   (delete all chunks, bulk-insert the new set, update the record);
3. else `upsert` (insert new (filePath, chunkIndex) rows, delete those no
   longer present — on one repository both leave exactly the new chunk set)
and on success the record becomes status ready with the written commit hash
and model. -/
def writeToVectorStore (store : VectorStoreState) (newChunks : List ChunkRow)
    (commitHash : String) (model : String) : WriteStrategy × VectorStoreState :=
  match store.indexRecord with
  | some rec =>
    if rec.commitHash = some commitHash ∧ rec.embeddingModel = model ∧
        rec.status = IndexStatus.ready then
      (WriteStrategy.skipped, store)
    else if rec.embeddingModel ≠ model then
      (WriteStrategy.fullReindex,
        { indexRecord := some
            { commitHash := some commitHash, embeddingModel := model
              status := IndexStatus.ready, chunkCount := newChunks.length }
          chunks := newChunks })
    else
      (WriteStrategy.upsert,
        { indexRecord := some
            { commitHash := some commitHash, embeddingModel := model
              status := IndexStatus.ready, chunkCount := newChunks.length }
          chunks := newChunks })
  | none =>
    (WriteStrategy.upsert,
      { indexRecord := some
          { commitHash := some commitHash, embeddingModel := model
            status := IndexStatus.ready, chunkCount := newChunks.length }
        chunks := newChunks })

end VectorStoreWriter

/-! ### Theorems -/

theorem insertDescBy_perm {α : Type} (key : α → ℚ) (x : α) (l : List α) :
    (insertDescBy key x l).Perm (x :: l) := by
  induction l with
  | nil => simp [insertDescBy]
  | cons y ys ih =>
    by_cases h : key x < key y
    · simp only [insertDescBy, if_pos h]
      exact (ih.cons y).trans (List.Perm.swap x y ys)
    · simp [insertDescBy, if_neg h]

theorem sortDescBy_perm {α : Type} (key : α → ℚ) (l : List α) :
    (sortDescBy key l).Perm l := by
  induction l with
  | nil => simp [sortDescBy]
  | cons x xs ih =>
    exact (insertDescBy_perm key x (sortDescBy key xs)).trans (ih.cons x)

theorem mem_insertDescBy {α : Type} {key : α → ℚ} {x a : α} {l : List α} :
    a ∈ insertDescBy key x l ↔ a = x ∨ a ∈ l :=
  ⟨fun h => by simpa using (insertDescBy_perm key x l).mem_iff.mp h,
   fun h => (insertDescBy_perm key x l).mem_iff.mpr (by simpa using h)⟩

theorem pairwise_insertDescBy {α : Type} {key : α → ℚ} {x : α} {l : List α}
    (hl : l.Pairwise (fun a b => key b ≤ key a)) :
    (insertDescBy key x l).Pairwise (fun a b => key b ≤ key a) := by
  induction l with
  | nil => simp [insertDescBy]
  | cons y ys ih =>
    rcases List.pairwise_cons.mp hl with ⟨hy, hys⟩
    by_cases h : key x < key y
    · simp only [insertDescBy, if_pos h]
      refine List.pairwise_cons.mpr ⟨?_, ih hys⟩
      intro z hz
      rcases mem_insertDescBy.mp hz with rfl | hz
      · exact le_of_lt h
      · exact hy z hz
    · simp only [insertDescBy, if_neg h]
      push_neg at h
      refine List.pairwise_cons.mpr ⟨?_, hl⟩
      intro z hz
      rcases List.mem_cons.mp hz with rfl | hz
      · exact h
      · exact le_trans (hy z hz) h

theorem pairwise_sortDescBy {α : Type} (key : α → ℚ) (l : List α) :
    (sortDescBy key l).Pairwise (fun a b => key b ≤ key a) := by
  induction l with
  | nil => simp [sortDescBy]
  | cons x xs ih => exact pairwise_insertDescBy ih

/-- Stability, expressed through filtering at a fixed key value: inserting `x`
prepends it to the equal-key fiber (every element it jumps over has a strictly
larger key), and leaves every other fiber unchanged. -/
theorem filter_insertDescBy {α : Type} (key : α → ℚ) (v : ℚ) (x : α) (l : List α) :
    (insertDescBy key x l).filter (fun c => decide (key c = v)) =
      if key x = v then x :: l.filter (fun c => decide (key c = v))
      else l.filter (fun c => decide (key c = v)) := by
  induction l with
  | nil =>
    by_cases hx : key x = v <;> simp [insertDescBy, List.filter_cons, hx]
  | cons y ys ih =>
    by_cases h : key x < key y
    · simp only [insertDescBy, if_pos h]
      rw [List.filter_cons, ih]
      by_cases hy : key y = v
      · have hx : ¬ key x = v := by
          intro hx
          rw [hx, hy] at h
          exact lt_irrefl v h
        simp [hy, hx, List.filter_cons]
      · by_cases hx : key x = v
        · simp [hy, hx, List.filter_cons]
        · simp [hy, hx, List.filter_cons]
    · simp only [insertDescBy, if_neg h]
      by_cases hx : key x = v
      · simp [List.filter_cons, hx]
      · simp [List.filter_cons, hx]

theorem filter_sortDescBy {α : Type} (key : α → ℚ) (v : ℚ) (l : List α) :
    (sortDescBy key l).filter (fun c => decide (key c = v)) =
      l.filter (fun c => decide (key c = v)) := by
  induction l with
  | nil => simp [sortDescBy]
  | cons x xs ih =>
    simp only [sortDescBy]
    rw [filter_insertDescBy]
    by_cases hx : key x = v
    · simp [hx, List.filter_cons, ih]
    · simp [hx, List.filter_cons, ih]

/-- When the input is already weakly sorted on a secondary key, the stable sort
on the primary key additionally orders every primary-key tie by the secondary
key (an element jumps only over strictly larger primary keys, and starts to the
left of everything it can tie with). -/
theorem pairwise_insertDescBy_tie {α : Type} {key key2 : α → ℚ} {x : α} {l : List α}
    (hl : l.Pairwise (fun a b => key b ≤ key a ∧ (key a = key b → key2 b ≤ key2 a)))
    (hx : ∀ z ∈ l, key2 z ≤ key2 x) :
    (insertDescBy key x l).Pairwise
      (fun a b => key b ≤ key a ∧ (key a = key b → key2 b ≤ key2 a)) := by
  induction l with
  | nil => simp [insertDescBy]
  | cons y ys ih =>
    rcases List.pairwise_cons.mp hl with ⟨hy, hys⟩
    by_cases h : key x < key y
    · simp only [insertDescBy, if_pos h]
      refine List.pairwise_cons.mpr ⟨?_, ih hys (fun z hz => hx z (List.mem_cons_of_mem y hz))⟩
      intro z hz
      rcases mem_insertDescBy.mp hz with rfl | hz
      · exact ⟨le_of_lt h, fun hk => absurd hk.symm (ne_of_lt h)⟩
      · exact hy z hz
    · simp only [insertDescBy, if_neg h]
      push_neg at h
      refine List.pairwise_cons.mpr ⟨?_, hl⟩
      intro z hz
      rcases List.mem_cons.mp hz with rfl | hz
      · exact ⟨h, fun _ => hx _ (List.mem_cons_self _ _)⟩
      · exact ⟨le_trans (hy z hz).1 h, fun _ => hx z (List.mem_cons_of_mem y hz)⟩

theorem pairwise_sortDescBy_tie {α : Type} (key key2 : α → ℚ) (l : List α)
    (hl : l.Pairwise (fun a b => key2 b ≤ key2 a)) :
    (sortDescBy key l).Pairwise
      (fun a b => key b ≤ key a ∧ (key a = key b → key2 b ≤ key2 a)) := by
  induction l with
  | nil => simp [sortDescBy]
  | cons x xs ih =>
    rcases List.pairwise_cons.mp hl with ⟨hx, hxs⟩
    refine pairwise_insertDescBy_tie (ih hxs) ?_
    intro z hz
    exact hx z ((sortDescBy_perm key xs).mem_iff.mp hz)

namespace Retriever

/-- The branch on empty candidate lists in `rerankByFileProximity` is
redundant: the general path also sends `[]` to `[]`. -/
theorem rerank_eq (candidates : List RawCandidate) (topK : Nat) :
    rerankByFileProximity candidates topK =
      (sortDescBy (·.score)
        (boostPass (anchorFiles candidates) (fun _ => 0) candidates)).take topK := by
  unfold rerankByFileProximity
  by_cases h : candidates.isEmpty
  · rw [if_pos h, List.isEmpty_iff.mp h]
    simp [boostPass, sortDescBy]
  · rw [if_neg h]

/-- Each output of the boost pass carries the vector score and file path of
the candidate that produced it, and its final score is their sum. -/
theorem mem_boostPass {anchors : List String} {boostApplied : String → ℚ}
    {cands : List RawCandidate} {c : RetrievedChunk}
    (hc : c ∈ boostPass anchors boostApplied cands) :
    ∃ r ∈ cands, c.vectorScore = r.vectorScore ∧ c.filePath = r.filePath ∧
      c.score = c.vectorScore + c.proximityBoost := by
  induction cands generalizing boostApplied with
  | nil => simp [boostPass] at hc
  | cons r rest ih =>
    rcases List.mem_cons.mp hc with rfl | hc
    · exact ⟨r, List.mem_cons_self r rest, rfl, rfl, rfl⟩
    · rcases ih hc with ⟨r2, hr2, h1, h2, h3⟩
      exact ⟨r2, List.mem_cons_of_mem r hr2, h1, h2, h3⟩

/-- The boost pass keeps the vector-score order of its input. -/
theorem boostPass_pairwise_vectorScore {anchors : List String}
    {boostApplied : String → ℚ} {cands : List RawCandidate}
    (h : cands.Pairwise (fun a b => b.vectorScore ≤ a.vectorScore)) :
    (boostPass anchors boostApplied cands).Pairwise
      (fun a b => b.vectorScore ≤ a.vectorScore) := by
  induction cands generalizing boostApplied with
  | nil => simp [boostPass]
  | cons r rest ih =>
    rcases List.pairwise_cons.mp h with ⟨hr, hrest⟩
    refine List.pairwise_cons.mpr ⟨?_, ih hrest⟩
    intro z hz
    rcases mem_boostPass hz with ⟨r2, hr2, h1, _, _⟩
    exact h1 ▸ hr r2 hr2

/-- A candidate whose file is outside the anchor set gets boost 0. -/
theorem boostPass_nonanchor {anchors : List String} {boostApplied : String → ℚ}
    {cands : List RawCandidate} {c : RetrievedChunk}
    (hc : c ∈ boostPass anchors boostApplied cands) (hf : c.filePath ∉ anchors) :
    c.proximityBoost = 0 := by
  induction cands generalizing boostApplied with
  | nil => simp [boostPass] at hc
  | cons r rest ih =>
    rcases List.mem_cons.mp hc with rfl | hc
    · simp only [mkScored] at hf ⊢
      unfold boostAmount
      rw [if_neg hf]
    · exact ih hc

/-- Under the tally invariant, every boost assigned is exactly 0 or exactly
PROXIMITY_BOOST = 0.08. -/
theorem boostAmount_cases {boostApplied : String → ℚ} (anchors : List String)
    (c : RawCandidate) (hinv : BoostTally boostApplied) :
    boostAmount anchors boostApplied c = 0 ∨
      boostAmount anchors boostApplied c = PROXIMITY_BOOST := by
  unfold boostAmount
  by_cases ha : c.filePath ∈ anchors
  · by_cases hlt : boostApplied c.filePath < MAX_PROXIMITY_BOOST_PER_FILE
    · rcases hinv c.filePath with h0 | h1 | h2
      · right
        rw [if_pos ha, if_pos hlt, h0]
        norm_num [PROXIMITY_BOOST, MAX_PROXIMITY_BOOST_PER_FILE]
      · right
        rw [if_pos ha, if_pos hlt, h1]
        norm_num [PROXIMITY_BOOST, MAX_PROXIMITY_BOOST_PER_FILE]
      · exact absurd hlt (not_lt.mpr h2)
    · left
      rw [if_pos ha, if_neg hlt]
  · left
    rw [if_neg ha]

/-- The tally invariant is preserved by one step of the boost pass. -/
theorem boostTally_bump {boostApplied : String → ℚ} (anchors : List String)
    (c : RawCandidate) (hinv : BoostTally boostApplied) :
    BoostTally (bumpTally boostApplied c.filePath (boostAmount anchors boostApplied c)) := by
  intro g
  unfold bumpTally
  by_cases hg : g = c.filePath
  · rw [if_pos hg]
    rcases boostAmount_cases anchors c hinv with hb0 | hbP
    · rw [hb0, add_zero]
      exact hinv c.filePath
    · rw [hbP]
      rcases hinv c.filePath with h0 | h1 | h2
      · rw [h0, zero_add]
        exact Or.inr (Or.inl rfl)
      · rw [h1]
        refine Or.inr (Or.inr ?_)
        norm_num [PROXIMITY_BOOST, MAX_PROXIMITY_BOOST_PER_FILE]
      · refine Or.inr (Or.inr ?_)
        have hP : (0:ℚ) ≤ PROXIMITY_BOOST := by norm_num [PROXIMITY_BOOST]
        linarith
  · rw [if_neg hg]
    exact hinv g

/-- Starting from a tally satisfying the invariant, every chunk the boost pass
emits carries proximityBoost 0 or 0.08. -/
theorem boostPass_boost_eq {anchors : List String} {boostApplied : String → ℚ}
    {cands : List RawCandidate} (hinv : BoostTally boostApplied) :
    ∀ c ∈ boostPass anchors boostApplied cands,
      c.proximityBoost = 0 ∨ c.proximityBoost = PROXIMITY_BOOST := by
  induction cands generalizing boostApplied with
  | nil => simp [boostPass]
  | cons r rest ih =>
    intro c hc
    rcases List.mem_cons.mp hc with rfl | hc
    · exact boostAmount_cases anchors r hinv
    · exact ih (boostTally_bump anchors r hinv) c hc

theorem fileBoostSum_cons (f : String) (c : RetrievedChunk) (l : List RetrievedChunk) :
    fileBoostSum f (c :: l) =
      (if c.filePath = f then c.proximityBoost else 0) + fileBoostSum f l := by
  unfold fileBoostSum
  by_cases h : c.filePath = f
  · simp [List.filter_cons, h]
  · simp [List.filter_cons, h]

/-- One step never lets the tally of a file grow beyond `max(tally, cap)`. -/
theorem tally_add_boostAmount_le (anchors : List String) (boostApplied : String → ℚ)
    (c : RawCandidate) :
    boostApplied c.filePath + boostAmount anchors boostApplied c ≤
      max (boostApplied c.filePath) MAX_PROXIMITY_BOOST_PER_FILE := by
  unfold boostAmount
  by_cases ha : c.filePath ∈ anchors
  · by_cases hlt : boostApplied c.filePath < MAX_PROXIMITY_BOOST_PER_FILE
    · rw [if_pos ha, if_pos hlt]
      have h1 : min PROXIMITY_BOOST (MAX_PROXIMITY_BOOST_PER_FILE - boostApplied c.filePath) ≤
          MAX_PROXIMITY_BOOST_PER_FILE - boostApplied c.filePath := min_le_right _ _
      have h2 : boostApplied c.filePath +
          min PROXIMITY_BOOST (MAX_PROXIMITY_BOOST_PER_FILE - boostApplied c.filePath) ≤
          MAX_PROXIMITY_BOOST_PER_FILE := by linarith
      exact le_trans h2 (le_max_right _ _)
    · rw [if_pos ha, if_neg hlt, add_zero]
      exact le_max_left _ _
  · rw [if_neg ha, add_zero]
    exact le_max_left _ _

/-- Core cap argument: the boost pass never lets `tally(f) + (total boost it
assigns to file f)` grow beyond `max(tally(f), cap)`. -/
theorem boostPass_fileSum (anchors : List String) (boostApplied : String → ℚ)
    (cands : List RawCandidate) (f : String) :
    boostApplied f + fileBoostSum f (boostPass anchors boostApplied cands) ≤
      max (boostApplied f) MAX_PROXIMITY_BOOST_PER_FILE := by
  induction cands generalizing boostApplied with
  | nil => simp [boostPass, fileBoostSum, le_max_left]
  | cons r rest ih =>
    simp only [boostPass]
    rw [fileBoostSum_cons]
    have hih := ih (bumpTally boostApplied r.filePath (boostAmount anchors boostApplied r))
    by_cases hf : r.filePath = f
    · subst hf
      have hproj1 : (mkScored r (boostAmount anchors boostApplied r)).filePath = r.filePath := rfl
      have hproj2 : (mkScored r (boostAmount anchors boostApplied r)).proximityBoost =
          boostAmount anchors boostApplied r := rfl
      rw [hproj1, if_pos rfl, hproj2]
      have htally : bumpTally boostApplied r.filePath (boostAmount anchors boostApplied r) r.filePath =
          boostApplied r.filePath + boostAmount anchors boostApplied r := by
        unfold bumpTally
        rw [if_pos rfl]
      rw [htally] at hih
      have hble := tally_add_boostAmount_le anchors boostApplied r
      have hmax : max (boostApplied r.filePath + boostAmount anchors boostApplied r)
          MAX_PROXIMITY_BOOST_PER_FILE ≤
          max (boostApplied r.filePath) MAX_PROXIMITY_BOOST_PER_FILE :=
        max_le hble (le_max_right _ _)
      calc boostApplied r.filePath + (boostAmount anchors boostApplied r +
              fileBoostSum r.filePath (boostPass anchors
                (bumpTally boostApplied r.filePath (boostAmount anchors boostApplied r)) rest)) =
            (boostApplied r.filePath + boostAmount anchors boostApplied r) +
              fileBoostSum r.filePath (boostPass anchors
                (bumpTally boostApplied r.filePath (boostAmount anchors boostApplied r)) rest) := by
              ring
        _ ≤ max (boostApplied r.filePath + boostAmount anchors boostApplied r)
              MAX_PROXIMITY_BOOST_PER_FILE := hih
        _ ≤ max (boostApplied r.filePath) MAX_PROXIMITY_BOOST_PER_FILE := hmax
    · have hproj1 : (mkScored r (boostAmount anchors boostApplied r)).filePath = r.filePath := rfl
      rw [hproj1, if_neg hf, zero_add]
      have htally : bumpTally boostApplied r.filePath (boostAmount anchors boostApplied r) f =
          boostApplied f := by
        unfold bumpTally
        rw [if_neg (fun h => hf h.symm)]
      rw [htally] at hih
      exact hih

/-- Every candidate the vector search returns passed the SQL minScore filter. -/
theorem vectorSearch_minScore {dist : List ℚ → List ℚ → ℚ} {queryVector : List ℚ}
    {table : List StoredChunk} {repoId : String} {limit : Nat} {minScore : ℚ}
    {fileFilter : Option (List String)} :
    ∀ r ∈ vectorSearch dist queryVector table repoId limit minScore fileFilter,
      minScore ≤ r.vectorScore := by
  intro r hr
  unfold vectorSearch at hr
  rcases List.mem_map.mp (List.mem_of_mem_take hr) with ⟨row, hrow, rfl⟩
  have hrow2 := (sortDescBy_perm _ _).mem_iff.mp hrow
  have hsel := (List.mem_filter.mp hrow2).2
  simp only [Bool.and_eq_true, decide_eq_true_eq] at hsel
  exact hsel.1.2

/-- The vector search returns its candidates ordered by the selected
similarity, descending (the SQL orders by distance ascending). -/
theorem vectorSearch_pairwise (dist : List ℚ → List ℚ → ℚ) (queryVector : List ℚ)
    (table : List StoredChunk) (repoId : String) (limit : Nat) (minScore : ℚ)
    (fileFilter : Option (List String)) :
    (vectorSearch dist queryVector table repoId limit minScore fileFilter).Pairwise
      (fun a b => b.vectorScore ≤ a.vectorScore) := by
  unfold vectorSearch
  refine List.Pairwise.sublist (List.take_sublist _ _) ?_
  rw [List.pairwise_map]
  exact pairwise_sortDescBy _ _

/-- A chunk of the reranker output comes from the (unsorted) boost pass. -/
theorem mem_rerank {cands : List RawCandidate} {topK : Nat} {c : RetrievedChunk}
    (hc : c ∈ rerankByFileProximity cands topK) :
    c ∈ boostPass (anchorFiles cands) (fun _ => 0) cands := by
  rw [rerank_eq] at hc
  exact (sortDescBy_perm _ _).mem_iff.mp (List.mem_of_mem_take hc)

theorem rerank_sorted (cands : List RawCandidate) (topK : Nat) :
    (rerankByFileProximity cands topK).Pairwise (fun a b => b.score ≤ a.score) := by
  rw [rerank_eq]
  exact List.Pairwise.sublist (List.take_sublist _ _) (pairwise_sortDescBy _ _)

theorem rerank_length_le (cands : List RawCandidate) (topK : Nat) :
    (rerankByFileProximity cands topK).length ≤ topK := by
  rw [rerank_eq]
  exact List.length_take_le _ _

/-- C1: for every retrieval result, the returned chunks are sorted by final
score descending, at most `topK` (default 8) chunks are returned, and every
returned chunk has `vectorScore ≥ minScore` (default 0.3). -/
theorem retrieve_contract (dist : List ℚ → List ℚ → ℚ) (table : List StoredChunk)
    (queryVector : List ℚ) (query : String) (options : RetrievalOptions) :
    (retrieve dist table queryVector query options).chunks.Pairwise
        (fun a b => b.score ≤ a.score) ∧
      (retrieve dist table queryVector query options).chunks.length ≤
        options.topK.getD DEFAULT_TOP_K ∧
      ∀ c ∈ (retrieve dist table queryVector query options).chunks,
        options.minScore.getD DEFAULT_MIN_SCORE ≤ c.vectorScore := by
  refine ⟨rerank_sorted _ _, rerank_length_le _ _, ?_⟩
  intro c hc
  have hs : c ∈ boostPass (anchorFiles _) (fun _ => 0) _ := mem_rerank hc
  rcases mem_boostPass hs with ⟨r, hr, hvs, _, _⟩
  rw [hvs]
  exact vectorSearch_minScore r hr

/-- C2: every chunk boost assigned in a single reranking is 0 or exactly 0.08,
the total boost over the returned chunks of any one file is at most 0.16, and
a chunk whose file is outside the anchor set gets boost 0. -/
theorem rerank_boost_cap (cands : List RawCandidate) (topK : Nat) :
    (∀ c ∈ rerankByFileProximity cands topK,
        c.proximityBoost = 0 ∨ c.proximityBoost = PROXIMITY_BOOST) ∧
      (∀ f, fileBoostSum f (rerankByFileProximity cands topK) ≤
        MAX_PROXIMITY_BOOST_PER_FILE) ∧
      ∀ c ∈ rerankByFileProximity cands topK,
        c.filePath ∉ anchorFiles cands → c.proximityBoost = 0 := by
  have hzero : BoostTally (fun _ => (0:ℚ)) := fun _ => Or.inl rfl
  refine ⟨?_, ?_, ?_⟩
  · intro c hc
    exact boostPass_boost_eq hzero c (mem_rerank hc)
  · intro f
    have hnn : ∀ a ∈ ((sortDescBy (fun c => c.score)
        (boostPass (anchorFiles cands) (fun _ => 0) cands)).filter
          fun c => decide (c.filePath = f)).map (·.proximityBoost), (0:ℚ) ≤ a := by
      intro a ha
      rcases List.mem_map.mp ha with ⟨c, hcf, rfl⟩
      have hcs := (sortDescBy_perm _ _).mem_iff.mp (List.mem_filter.mp hcf).1
      rcases boostPass_boost_eq hzero c hcs with h0 | hP
      · rw [h0]
      · rw [hP]
        norm_num [PROXIMITY_BOOST]
    have hsub : fileBoostSum f (rerankByFileProximity cands topK) ≤
        fileBoostSum f (sortDescBy (fun c => c.score)
          (boostPass (anchorFiles cands) (fun _ => 0) cands)) := by
      rw [rerank_eq]
      unfold fileBoostSum
      exact List.Sublist.sum_le_sum
        (List.Sublist.map _ (List.Sublist.filter _ (List.take_sublist _ _))) hnn
    have hperm : fileBoostSum f (sortDescBy (fun c => c.score)
        (boostPass (anchorFiles cands) (fun _ => 0) cands)) =
        fileBoostSum f (boostPass (anchorFiles cands) (fun _ => 0) cands) := by
      unfold fileBoostSum
      exact (((sortDescBy_perm _ _).filter _).map _).sum_eq
    have hcap := boostPass_fileSum (anchorFiles cands) (fun _ => 0) cands f
    rw [zero_add] at hcap
    have hmax : max (0:ℚ) MAX_PROXIMITY_BOOST_PER_FILE = MAX_PROXIMITY_BOOST_PER_FILE :=
      max_eq_right (by norm_num [MAX_PROXIMITY_BOOST_PER_FILE])
    rw [hmax] at hcap
    calc fileBoostSum f (rerankByFileProximity cands topK) ≤ _ := hsub
      _ = _ := hperm
      _ ≤ MAX_PROXIMITY_BOOST_PER_FILE := hcap
  · intro c hc hf
    exact boostPass_nonanchor (mem_rerank hc) hf

/-- C8: when the candidates arrive ordered by vector score descending (as
`vectorSearch` returns them), the reranker output is sorted by final score
descending, ties in final score have the higher vector score first, and chunks
with equal final score keep their original retrieval order (the output fiber
at each score value is a sublist of the boost-pass output, which is in
retrieval order). -/
theorem rerank_tiebreak (cands : List RawCandidate) (topK : Nat)
    (hsorted : cands.Pairwise (fun a b => b.vectorScore ≤ a.vectorScore)) :
    (rerankByFileProximity cands topK).Pairwise
        (fun a b => b.score ≤ a.score ∧ (a.score = b.score → b.vectorScore ≤ a.vectorScore)) ∧
      ∀ v : ℚ,
        ((rerankByFileProximity cands topK).filter fun c => decide (c.score = v)).Sublist
          ((boostPass (anchorFiles cands) (fun _ => 0) cands).filter
            fun c => decide (c.score = v)) := by
  constructor
  · rw [rerank_eq]
    refine List.Pairwise.sublist (List.take_sublist _ _) ?_
    exact pairwise_sortDescBy_tie (fun c : RetrievedChunk => c.score)
      (fun c : RetrievedChunk => c.vectorScore) _
      (boostPass_pairwise_vectorScore hsorted)
  · intro v
    rw [rerank_eq]
    have h1 := List.Sublist.filter (fun c => decide (c.score = v))
      (List.take_sublist topK (sortDescBy (fun c => c.score)
        (boostPass (anchorFiles cands) (fun _ => 0) cands)))
    have h2 := filter_sortDescBy (fun c => c.score) v
      (boostPass (anchorFiles cands) (fun _ => 0) cands)
    rw [h2] at h1
    exact h1

/-- Witness for C1 at a concrete table and query. -/
theorem retrieve_contract_witness :
    sampleRetrieved ∈ (retrieve sampleDist [sampleRow] [1] "q" sampleOptions).chunks ∧
      sampleOptions.minScore.getD DEFAULT_MIN_SCORE ≤ sampleRetrieved.vectorScore := by
  have hchunks : (retrieve sampleDist [sampleRow] [1] "q" sampleOptions).chunks =
      [sampleRetrieved] := by
    norm_num [retrieve, vectorSearch, sampleDist, sampleRow, sampleOptions, rowScore,
      fileFilterOk, toCandidate, rerankByFileProximity, anchorFiles, boostPass, boostAmount,
      bumpTally, mkScored, sortDescBy, insertDescBy, sampleRetrieved,
      DEFAULT_MIN_SCORE, MAX_PROXIMITY_BOOST_PER_FILE, PROXIMITY_BOOST,
      DEFAULT_TOP_K, DEFAULT_CANDIDATE_MULTIPLIER]
  have hmem : sampleRetrieved ∈ (retrieve sampleDist [sampleRow] [1] "q" sampleOptions).chunks := by
    rw [hchunks]
    exact List.mem_singleton.mpr rfl
  exact ⟨hmem,
    (retrieve_contract sampleDist [sampleRow] [1] "q" sampleOptions).2.2 sampleRetrieved hmem⟩

/-- Witness for C2: at the sample candidates the cap is attained exactly. -/
theorem rerank_boost_cap_witness :
    fileBoostSum "a.ts" (rerankByFileProximity sampleCands 8) ≤ MAX_PROXIMITY_BOOST_PER_FILE ∧
      fileBoostSum "a.ts" (rerankByFileProximity sampleCands 8) = 4 / 25 := by
  refine ⟨(rerank_boost_cap sampleCands 8).2.1 "a.ts", ?_⟩
  norm_num [fileBoostSum, rerankByFileProximity, sampleCands, mkCand, anchorFiles, boostPass,
    boostAmount, bumpTally, mkScored, sortDescBy, insertDescBy,
    MAX_PROXIMITY_BOOST_PER_FILE, PROXIMITY_BOOST]

/-- Witness for C8 at concrete sorted candidates. -/
theorem rerank_tiebreak_witness :
    sampleCands.Pairwise (fun a b => b.vectorScore ≤ a.vectorScore) ∧
      (rerankByFileProximity sampleCands 8).Pairwise
        (fun a b => b.score ≤ a.score ∧ (a.score = b.score → b.vectorScore ≤ a.vectorScore)) := by
  have hs : sampleCands.Pairwise (fun a b => b.vectorScore ≤ a.vectorScore) := by
    norm_num [sampleCands, mkCand, List.pairwise_cons]
  exact ⟨hs, (rerank_tiebreak sampleCands 8 hs).1⟩

end Retriever

namespace EmbeddingEngine

-- Unfolding lemmas for the three reachable branches of `embedWithGemini`.

theorem embedWithGemini_cons_error {service : GeminiService} {c : CodeChunk}
    {cs : List CodeChunk} {callIdx : Nat} {e : String}
    (hcall : callGeminiBatchEmbed service callIdx ((c :: cs).take GEMINI_BATCH_SIZE) =
      .error e) :
    embedWithGemini service (c :: cs) callIdx =
      ([.apiCall (geminiBatchRequests ((c :: cs).take GEMINI_BATCH_SIZE))], .error e) := by
  rw [embedWithGemini.eq_def]
  simp only [hcall]

theorem embedWithGemini_cons_ok_last {service : GeminiService} {c : CodeChunk}
    {cs : List CodeChunk} {callIdx : Nat} {vectors : List (List ℚ)}
    (hcall : callGeminiBatchEmbed service callIdx ((c :: cs).take GEMINI_BATCH_SIZE) =
      .ok vectors)
    (hrest : (cs.drop (GEMINI_BATCH_SIZE - 1)).isEmpty = true) :
    embedWithGemini service (c :: cs) callIdx =
      ([.apiCall (geminiBatchRequests ((c :: cs).take GEMINI_BATCH_SIZE))],
        .ok (List.zipWith EmbeddedChunk.mk ((c :: cs).take GEMINI_BATCH_SIZE) vectors)) := by
  rw [embedWithGemini.eq_def]
  simp only [hcall, hrest, if_true]

theorem embedWithGemini_cons_ok_more {service : GeminiService} {c : CodeChunk}
    {cs : List CodeChunk} {callIdx : Nat} {vectors : List (List ℚ)}
    (hcall : callGeminiBatchEmbed service callIdx ((c :: cs).take GEMINI_BATCH_SIZE) =
      .ok vectors)
    (hrest : ¬ (cs.drop (GEMINI_BATCH_SIZE - 1)).isEmpty = true) :
    embedWithGemini service (c :: cs) callIdx =
      (.apiCall (geminiBatchRequests ((c :: cs).take GEMINI_BATCH_SIZE)) ::
          .sleep 200 :: (embedWithGemini service (cs.drop (GEMINI_BATCH_SIZE - 1)) (callIdx + 1)).1,
        match (embedWithGemini service (cs.drop (GEMINI_BATCH_SIZE - 1)) (callIdx + 1)).2 with
        | .error e => .error e
        | .ok tail =>
          .ok (List.zipWith EmbeddedChunk.mk ((c :: cs).take GEMINI_BATCH_SIZE) vectors ++ tail)) := by
  rcases hrec : embedWithGemini service (cs.drop (GEMINI_BATCH_SIZE - 1)) (callIdx + 1) with
    ⟨tailTrace, tailRes⟩
  cases tailRes with
  | error e =>
    rw [embedWithGemini.eq_def]
    simp only [hcall, hrest, hrec]
    simp
  | ok tail =>
    rw [embedWithGemini.eq_def]
    simp only [hcall, hrest, hrec]
    simp

/-- A successful batch call returns exactly one vector per chunk. -/
theorem callGeminiBatchEmbed_ok_length {service : GeminiService} {callIdx : Nat}
    {chunks : List CodeChunk} {vectors : List (List ℚ)}
    (h : callGeminiBatchEmbed service callIdx chunks = .ok vectors) :
    vectors.length = chunks.length := by
  unfold callGeminiBatchEmbed at h
  split at h
  · simp at h
  · simp at h
  · split at h
    · simp at h
    · rename_i hlen
      cases h
      push_neg at hlen
      exact hlen

theorem map_chunk_zipWith (as : List CodeChunk) (bs : List (List ℚ))
    (h : bs.length = as.length) :
    (List.zipWith EmbeddedChunk.mk as bs).map EmbeddedChunk.chunk = as := by
  induction as generalizing bs with
  | nil => simp
  | cons a as ih =>
    cases bs with
    | nil => simp at h
    | cons b bs =>
      simp only [List.zipWith, List.map_cons]
      rw [ih bs (by simpa using h)]

/-- On success, `embedWithGemini` yields one EmbeddedChunk per input chunk, in
input order. -/
theorem embedWithGemini_ok_chunks (service : GeminiService)
    (chunks : List CodeChunk) (callIdx : Nat) :
    ∀ l, (embedWithGemini service chunks callIdx).2 = Except.ok l →
      l.map EmbeddedChunk.chunk = chunks := by
  induction chunks, callIdx using embedWithGemini.induct service with
  | case1 callIdx =>
    intro l h
    simp only [embedWithGemini] at h
    cases h
    simp
  | case2 c cs callIdx e hcall =>
    intro l h
    rw [embedWithGemini_cons_error hcall] at h
    simp at h
  | case3 c cs callIdx vectors hcall hrest =>
    intro l h
    rw [embedWithGemini_cons_ok_last hcall hrest] at h
    simp only at h
    cases h
    have hlen := callGeminiBatchEmbed_ok_length hcall
    rw [map_chunk_zipWith _ _ hlen]
    have hcs : cs.length ≤ GEMINI_BATCH_SIZE - 1 := by
      have h0 : (cs.drop (GEMINI_BATCH_SIZE - 1)).length = 0 := by
        rw [List.isEmpty_iff.mp hrest]
        rfl
      rw [List.length_drop] at h0
      omega
    refine List.take_of_length_le ?_
    simp only [List.length_cons, GEMINI_BATCH_SIZE] at hcs ⊢
    omega
  | case4 c cs callIdx vectors hcall hrest tailTrace e hrec ih =>
    intro l h
    rw [embedWithGemini_cons_ok_more hcall hrest] at h
    rw [hrec] at h
    simp at h
  | case5 c cs callIdx vectors hcall hrest tailTrace tail hrec ih =>
    intro l h
    rw [embedWithGemini_cons_ok_more hcall hrest] at h
    rw [hrec] at h
    simp only at h
    cases h
    have hlen := callGeminiBatchEmbed_ok_length hcall
    rw [List.map_append, map_chunk_zipWith _ _ hlen, ih tail (by rw [hrec])]
    have hdrop : cs.drop (GEMINI_BATCH_SIZE - 1) = (c :: cs).drop GEMINI_BATCH_SIZE := by
      simp only [GEMINI_BATCH_SIZE]
      rfl
    rw [hdrop, List.take_append_drop]

/-- C9: `embedChunks` returns exactly one embedded entry per input chunk and
preserves chunk order, on both the Gemini and the Xenova path. -/
theorem embedChunks_order (apiKey : Option String) (service : GeminiService)
    (xenova : String → List ℚ) (chunks : List CodeChunk) (res : EmbeddingResult)
    (h : embedChunks apiKey service xenova chunks = .ok res) :
    res.embedded.map EmbeddedChunk.chunk = chunks ∧
      res.embedded.length = chunks.length := by
  have hmap : res.embedded.map EmbeddedChunk.chunk = chunks := by
    unfold embedChunks at h
    by_cases hempty : chunks.isEmpty
    · rw [if_pos hempty] at h
      cases h
      rw [List.isEmpty_iff.mp hempty]
      rfl
    · rw [if_neg hempty] at h
      cases apiKey with
      | none =>
        cases h
        simp only [embedWithXenova, List.map_map]
        exact List.map_id chunks
      | some key =>
        cases hg : (embedWithGemini service chunks 0).2 with
        | error e =>
          rw [hg] at h
          simp at h
        | ok embedded =>
          rw [hg] at h
          cases h
          exact embedWithGemini_ok_chunks service chunks 0 embedded hg
  refine ⟨hmap, ?_⟩
  have := congrArg List.length hmap
  simpa using this

/-- Every HTTP round-trip in an `embedWithGemini` run carries the request
array of one nonempty batch of at most 100 chunks. -/
theorem trace_calls {service : GeminiService} :
    ∀ (chunks : List CodeChunk) (callIdx : Nat) (reqs : List EmbedRequest),
      EmbedEvent.apiCall reqs ∈ (embedWithGemini service chunks callIdx).1 →
      ∃ batch : List CodeChunk, reqs = geminiBatchRequests batch ∧ batch ≠ [] ∧
        batch.length ≤ GEMINI_BATCH_SIZE := by
  intro chunks callIdx
  have hbatch : ∀ (c : CodeChunk) (cs : List CodeChunk),
      (c :: cs).take GEMINI_BATCH_SIZE ≠ [] ∧
        ((c :: cs).take GEMINI_BATCH_SIZE).length ≤ GEMINI_BATCH_SIZE := by
    intro c cs
    constructor
    · simp [GEMINI_BATCH_SIZE, List.take_succ_cons]
    · exact List.length_take_le _ _
  induction chunks, callIdx using embedWithGemini.induct service with
  | case1 callIdx =>
    intro reqs h
    simp [embedWithGemini] at h
  | case2 c cs callIdx e hcall =>
    intro reqs h
    rw [embedWithGemini_cons_error hcall] at h
    rcases List.mem_singleton.mp h with h2
    cases h2
    exact ⟨_, rfl, (hbatch c cs).1, (hbatch c cs).2⟩
  | case3 c cs callIdx vectors hcall hrest =>
    intro reqs h
    rw [embedWithGemini_cons_ok_last hcall hrest] at h
    rcases List.mem_singleton.mp h with h2
    cases h2
    exact ⟨_, rfl, (hbatch c cs).1, (hbatch c cs).2⟩
  | case4 c cs callIdx vectors hcall hrest tailTrace e hrec ih =>
    intro reqs h
    rw [embedWithGemini_cons_ok_more hcall hrest] at h
    rcases List.mem_cons.mp h with h2 | h3
    · cases h2
      exact ⟨_, rfl, (hbatch c cs).1, (hbatch c cs).2⟩
    · rcases List.mem_cons.mp h3 with h4 | h5
      · cases h4
      · exact ih reqs h5
  | case5 c cs callIdx vectors hcall hrest tailTrace tail hrec ih =>
    intro reqs h
    rw [embedWithGemini_cons_ok_more hcall hrest] at h
    rcases List.mem_cons.mp h with h2 | h3
    · cases h2
      exact ⟨_, rfl, (hbatch c cs).1, (hbatch c cs).2⟩
    · rcases List.mem_cons.mp h3 with h4 | h5
      · cases h4
      · exact ih reqs h5

/-- Every pause in an `embedWithGemini` run sleeps exactly 200 ms. -/
theorem trace_sleeps {service : GeminiService} :
    ∀ (chunks : List CodeChunk) (callIdx : Nat) (ms : Nat),
      EmbedEvent.sleep ms ∈ (embedWithGemini service chunks callIdx).1 → ms = 200 := by
  intro chunks callIdx
  induction chunks, callIdx using embedWithGemini.induct service with
  | case1 callIdx =>
    intro ms h
    simp [embedWithGemini] at h
  | case2 c cs callIdx e hcall =>
    intro ms h
    rw [embedWithGemini_cons_error hcall] at h
    cases List.mem_singleton.mp h
  | case3 c cs callIdx vectors hcall hrest =>
    intro ms h
    rw [embedWithGemini_cons_ok_last hcall hrest] at h
    cases List.mem_singleton.mp h
  | case4 c cs callIdx vectors hcall hrest tailTrace e hrec ih =>
    intro ms h
    rw [embedWithGemini_cons_ok_more hcall hrest] at h
    rcases List.mem_cons.mp h with h2 | h3
    · cases h2
    · rcases List.mem_cons.mp h3 with h4 | h5
      · cases h4
        rfl
      · exact ih ms h5
  | case5 c cs callIdx vectors hcall hrest tailTrace tail hrec ih =>
    intro ms h
    rw [embedWithGemini_cons_ok_more hcall hrest] at h
    rcases List.mem_cons.mp h with h2 | h3
    · cases h2
    · rcases List.mem_cons.mp h3 with h4 | h5
      · cases h4
        rfl
      · exact ih ms h5

/-- Shape of a nonempty run: events strictly alternate between calls and
sleeps, and the run both starts and ends with a call (so there is no pause
after the final batch, and exactly one pause between consecutive batches). -/
theorem trace_shape {service : GeminiService} :
    ∀ (chunks : List CodeChunk) (callIdx : Nat), chunks ≠ [] →
      (embedWithGemini service chunks callIdx).1.Chain'
          (fun a b => a.isCall ≠ b.isCall) ∧
        (∃ reqs, (embedWithGemini service chunks callIdx).1.head? =
          some (EmbedEvent.apiCall reqs)) ∧
        ∃ reqs, (embedWithGemini service chunks callIdx).1.getLast? =
          some (EmbedEvent.apiCall reqs) := by
  intro chunks callIdx
  induction chunks, callIdx using embedWithGemini.induct service with
  | case1 callIdx =>
    intro hne
    exact absurd rfl hne
  | case2 c cs callIdx e hcall =>
    intro hne
    rw [embedWithGemini_cons_error hcall]
    exact ⟨List.chain'_singleton _, ⟨_, rfl⟩, ⟨_, rfl⟩⟩
  | case3 c cs callIdx vectors hcall hrest =>
    intro hne
    rw [embedWithGemini_cons_ok_last hcall hrest]
    exact ⟨List.chain'_singleton _, ⟨_, rfl⟩, ⟨_, rfl⟩⟩
  | case4 c cs callIdx vectors hcall hrest tailTrace e hrec ih =>
    intro hne
    rw [embedWithGemini_cons_ok_more hcall hrest]
    have hrne : cs.drop (GEMINI_BATCH_SIZE - 1) ≠ [] := by
      intro hnil
      exact hrest (by simp [hnil])
    rcases ih hrne with ⟨hchain, ⟨r1, hhead⟩, ⟨r2, hlast⟩⟩
    rw [hrec] at hchain hhead hlast
    simp only at hchain hhead hlast
    cases htt : tailTrace with
    | nil =>
      rw [htt] at hhead
      cases hhead
    | cons x xs =>
      rw [htt] at hhead hchain hlast
      have hx : x = EmbedEvent.apiCall r1 := by
        simpa using hhead
      subst hx
      refine ⟨?_, ⟨_, rfl⟩, ?_⟩
      · rw [hrec, htt]
        refine List.chain'_cons.mpr ⟨by simp [EmbedEvent.isCall], ?_⟩
        exact List.chain'_cons.mpr ⟨by simp [EmbedEvent.isCall], hchain⟩
      · rw [hrec, htt]
        refine ⟨r2, ?_⟩
        rw [List.getLast?_cons_cons, List.getLast?_cons_cons]
        exact hlast
  | case5 c cs callIdx vectors hcall hrest tailTrace tail hrec ih =>
    intro hne
    rw [embedWithGemini_cons_ok_more hcall hrest]
    have hrne : cs.drop (GEMINI_BATCH_SIZE - 1) ≠ [] := by
      intro hnil
      exact hrest (by simp [hnil])
    rcases ih hrne with ⟨hchain, ⟨r1, hhead⟩, ⟨r2, hlast⟩⟩
    rw [hrec] at hchain hhead hlast
    simp only at hchain hhead hlast
    cases htt : tailTrace with
    | nil =>
      rw [htt] at hhead
      cases hhead
    | cons x xs =>
      rw [htt] at hhead hchain hlast
      have hx : x = EmbedEvent.apiCall r1 := by
        simpa using hhead
      subst hx
      refine ⟨?_, ⟨_, rfl⟩, ?_⟩
      · rw [hrec, htt]
        refine List.chain'_cons.mpr ⟨by simp [EmbedEvent.isCall], ?_⟩
        exact List.chain'_cons.mpr ⟨by simp [EmbedEvent.isCall], hchain⟩
      · rw [hrec, htt]
        refine ⟨r2, ?_⟩
        rw [List.getLast?_cons_cons, List.getLast?_cons_cons]
        exact hlast

/-- C5: with a remote key configured, every API call of an embedding run
carries at most 100 chunks, the pauses between batches are exactly 200 ms,
and the events strictly alternate call, sleep, call, …, call — the batches
are dispatched one after the other, with no pause after the final batch. -/
theorem embed_batching_contract (service : GeminiService)
    (chunks : List CodeChunk) (callIdx : Nat) (hne : chunks ≠ []) :
    (∀ reqs, EmbedEvent.apiCall reqs ∈ (embedWithGemini service chunks callIdx).1 →
        ∃ batch : List CodeChunk, reqs = geminiBatchRequests batch ∧ batch ≠ [] ∧
          batch.length ≤ GEMINI_BATCH_SIZE) ∧
      (∀ ms, EmbedEvent.sleep ms ∈ (embedWithGemini service chunks callIdx).1 →
        ms = 200) ∧
      (embedWithGemini service chunks callIdx).1.Chain'
        (fun a b => a.isCall ≠ b.isCall) ∧
      (∃ reqs, (embedWithGemini service chunks callIdx).1.head? =
        some (EmbedEvent.apiCall reqs)) ∧
      ∃ reqs, (embedWithGemini service chunks callIdx).1.getLast? =
        some (EmbedEvent.apiCall reqs) := by
  rcases trace_shape chunks callIdx hne with ⟨h1, h2, h3⟩
  exact ⟨trace_calls chunks callIdx, trace_sleeps chunks callIdx, h1, h2, h3⟩

/-- C4: every request of the indexing path carries task type
RETRIEVAL_DOCUMENT (both as built per batch and as sent over any run), the
query path request carries RETRIEVAL_QUERY, and the two tags differ — the
paths never mix task types. -/
theorem task_type_separation (chunks : List CodeChunk) (query : String) :
    (∀ r ∈ geminiBatchRequests chunks, r.taskType = TASK_TYPE_DOCUMENT) ∧
      (∀ (service : GeminiService) (callIdx : Nat) (reqs : List EmbedRequest),
        EmbedEvent.apiCall reqs ∈ (embedWithGemini service chunks callIdx).1 →
          ∀ r ∈ reqs, r.taskType = TASK_TYPE_DOCUMENT) ∧
      (QueryEmbedder.geminiQueryRequest query).taskType = QueryEmbedder.TASK_TYPE_QUERY ∧
      TASK_TYPE_DOCUMENT = "RETRIEVAL_DOCUMENT" ∧
      QueryEmbedder.TASK_TYPE_QUERY = "RETRIEVAL_QUERY" ∧
      TASK_TYPE_DOCUMENT ≠ QueryEmbedder.TASK_TYPE_QUERY := by
  have hall : ∀ (cks : List CodeChunk) (r : EmbedRequest),
      r ∈ geminiBatchRequests cks → r.taskType = TASK_TYPE_DOCUMENT := by
    intro cks r hr
    rcases List.mem_map.mp hr with ⟨c, _, rfl⟩
    rfl
  refine ⟨hall chunks, ?_, rfl, rfl, rfl, by decide⟩
  intro service callIdx reqs hreqs r hr
  rcases trace_calls chunks callIdx reqs hreqs with ⟨batch, rfl, _, _⟩
  exact hall batch r hr

/-- Witness for C4 at a concrete chunk and query. -/
theorem task_type_separation_witness :
    wDocRequest.taskType = TASK_TYPE_DOCUMENT ∧
      (QueryEmbedder.geminiQueryRequest "How does login work?").taskType =
        QueryEmbedder.TASK_TYPE_QUERY := by
  refine ⟨(task_type_separation [wChunk] "How does login work?").1 wDocRequest ?_,
    (task_type_separation [wChunk] "How does login work?").2.2.1⟩
  simp [geminiBatchRequests, wDocRequest]

/-- Witness for C9 at a concrete run. -/
theorem embedChunks_order_witness :
    embedChunks none wOkService wXenova [wChunk] =
        .ok ⟨[⟨wChunk, [1]⟩], "Xenova/all-MiniLM-L6-v2"⟩ ∧
      (⟨[⟨wChunk, [1]⟩], "Xenova/all-MiniLM-L6-v2"⟩ : EmbeddingResult).embedded.map
        EmbeddedChunk.chunk = [wChunk] := by
  have h : embedChunks none wOkService wXenova [wChunk] =
      .ok ⟨[⟨wChunk, [1]⟩], "Xenova/all-MiniLM-L6-v2"⟩ := rfl
  exact ⟨h, (embedChunks_order none wOkService wXenova [wChunk] _ h).1⟩

/-- Witness for C5 at a concrete single-batch run. -/
theorem embed_batching_contract_witness :
    ([wChunk] : List CodeChunk) ≠ [] ∧
      (embedWithGemini wOkService [wChunk] 0).1.Chain'
        (fun a b => a.isCall ≠ b.isCall) := by
  have hne : ([wChunk] : List CodeChunk) ≠ [] := by simp
  exact ⟨hne, (embed_batching_contract wOkService [wChunk] 0 hne).2.2.1⟩

/-- Counterexample to C6 as stated: against `wFlakyService` a second attempt
at the failed batch would succeed (first conjunct), yet the run performs
exactly one API call for it (second conjunct: the whole trace is that single
call) and `embedChunks` aborts with the first error — no retry ever happens. -/
theorem embed_no_retry_counterexample :
    callGeminiBatchEmbed wFlakyService 1 [wChunk] = .ok [[(1:ℚ)]] ∧
      (embedWithGemini wFlakyService [wChunk] 0).1 =
        [.apiCall (geminiBatchRequests [wChunk])] ∧
      embedChunks (some "key") wFlakyService wXenova [wChunk] =
        .error "Gemini embedding API error 500: Internal Server Error" := by
  have hcall : callGeminiBatchEmbed wFlakyService 0
      (([wChunk] : List CodeChunk).take GEMINI_BATCH_SIZE) =
      .error "Gemini embedding API error 500: Internal Server Error" := rfl
  have h2 := embedWithGemini_cons_error hcall
  have hsnd : (embedWithGemini wFlakyService [wChunk] 0).2 =
      .error "Gemini embedding API error 500: Internal Server Error" := by
    rw [h2]
  refine ⟨rfl, ?_, ?_⟩
  · rw [h2]
    rfl
  · simp [embedChunks, hsnd]

/-- C6 amended: a failed batch is not retried — the single service call made
for the first batch fails, the run aborts at once with that error (the trace
shows exactly one API call), and `embedChunks` surfaces the error with no
partial embeddings. -/
theorem embed_failed_batch_aborts (service : GeminiService) (c : CodeChunk)
    (cs : List CodeChunk) (callIdx : Nat) (e : String)
    (hcall : callGeminiBatchEmbed service callIdx ((c :: cs).take GEMINI_BATCH_SIZE) =
      .error e) :
    embedWithGemini service (c :: cs) callIdx =
        ([.apiCall (geminiBatchRequests ((c :: cs).take GEMINI_BATCH_SIZE))], .error e) ∧
      ∀ (apiKey : String) (xenova : String → List ℚ), callIdx = 0 →
        embedChunks (some apiKey) service xenova (c :: cs) = .error e := by
  have h2 := embedWithGemini_cons_error hcall
  refine ⟨h2, ?_⟩
  intro apiKey xenova h0
  subst h0
  have hsnd : (embedWithGemini service (c :: cs) 0).2 = .error e := by
    rw [h2]
  simp [embedChunks, hsnd]

/-- Witness for the amended C6 at a concrete run. -/
theorem embed_failed_batch_aborts_witness :
    embedChunks (some "key") wFailService wXenova [wChunk] =
      .error "Gemini embedding API error 500: boom" :=
  (embed_failed_batch_aborts wFailService wChunk [] 0
    "Gemini embedding API error 500: boom" rfl).2 "key" wXenova rfl

/-- Counterexample to C7 as stated: `wOkService` answers with the right
number of embeddings but 1-dimensional vectors, and the embedder returns them
successfully — no check of the 768-dimension constant happens. -/
theorem embed_dim_unchecked_counterexample :
    (embedWithGemini wOkService [wChunk] 0).2 =
        .ok [⟨wChunk, [(1:ℚ)]⟩] ∧
      ([(1:ℚ)]).length ≠ GEMINI_EMBEDDING_DIM := by
  have hcall : callGeminiBatchEmbed wOkService 0
      (([wChunk] : List CodeChunk).take GEMINI_BATCH_SIZE) = .ok [[(1:ℚ)]] := rfl
  have hrest : (([] : List CodeChunk).drop (GEMINI_BATCH_SIZE - 1)).isEmpty = true := rfl
  have h2 := embedWithGemini_cons_ok_last hcall hrest
  refine ⟨?_, by decide⟩
  rw [h2]
  rfl

/-- C7 amended: the batch fails fast exactly when the service returns a
number of embeddings different from the number of chunks; when the counts
match, the vectors are passed through with no validation of their dimension. -/
theorem callGeminiBatchEmbed_count_check (service : GeminiService) (callIdx : Nat)
    (chunks : List CodeChunk) (embeddings : List (List ℚ))
    (hresp : service callIdx (geminiBatchRequests chunks) = .success (some embeddings)) :
    (embeddings.length ≠ chunks.length →
        callGeminiBatchEmbed service callIdx chunks =
          .error ("Gemini returned " ++ toString embeddings.length ++
            " embeddings for " ++ toString chunks.length ++ " chunks")) ∧
      (embeddings.length = chunks.length →
        callGeminiBatchEmbed service callIdx chunks = .ok embeddings) := by
  constructor
  · intro hne
    unfold callGeminiBatchEmbed
    rw [hresp]
    dsimp only
    rw [if_pos hne]
  · intro heq
    unfold callGeminiBatchEmbed
    rw [hresp]
    dsimp only
    rw [if_neg (fun h => h heq)]

/-- Witness for the amended C7 at a concrete count mismatch. -/
theorem callGeminiBatchEmbed_count_check_witness :
    callGeminiBatchEmbed wBadCountService 0 [wChunk] =
      .error "Gemini returned 0 embeddings for 1 chunks" :=
  (callGeminiBatchEmbed_count_check wBadCountService 0 [wChunk] [] rfl).1 (by decide)

end EmbeddingEngine

namespace QueryEmbedder

/-- C10: with no GEMINI_API_KEY, `embedQuery` returns the local fallback
model vector unchanged — even when its length differs from the declared
GEMINI_EMBEDDING_DIM = 768, no error is raised and no validation happens. -/
theorem embedQuery_fallback_unvalidated (service : QueryService)
    (model : String → List ℚ) (query : String)
    (hdim : (model query).length ≠ GEMINI_EMBEDDING_DIM) :
    embedQuery none service (some model) query = .ok (model query) := by
  clear hdim
  rfl

/-- Witness for C10: a 1-dimensional fallback vector flows through. -/
theorem embedQuery_fallback_unvalidated_witness :
    ((fun _ : String => [(1:ℚ)]) "q").length ≠ GEMINI_EMBEDDING_DIM ∧
      embedQuery none wQueryService (some (fun _ : String => [(1:ℚ)])) "q" =
        .ok [(1:ℚ)] :=
  ⟨by decide,
    embedQuery_fallback_unvalidated wQueryService (fun _ : String => [(1:ℚ)]) "q" (by decide)⟩

end QueryEmbedder

namespace VectorStoreWriter

/-- A write whose store already holds a ready record at the same commit hash
and model takes the skip branch and leaves the store untouched. -/
theorem write_skips_of_ready (store : VectorStoreState) (rec : RepoIndexRecord)
    (newChunks : List ChunkRow) (commitHash model : String)
    (h : store.indexRecord = some rec) (h1 : rec.commitHash = some commitHash)
    (h2 : rec.embeddingModel = model) (h3 : rec.status = IndexStatus.ready) :
    writeToVectorStore store newChunks commitHash model =
      (WriteStrategy.skipped, store) := by
  unfold writeToVectorStore
  rw [h]
  dsimp only
  rw [if_pos ⟨h1, h2, h3⟩]

/-- Every write leaves the index record ready at the written commit hash and
model (the skip branch keeps the old record, which matched; the other
branches write a fresh ready record). -/
theorem write_leaves_matching_ready (store : VectorStoreState)
    (newChunks : List ChunkRow) (commitHash model : String) :
    ∃ rec2, (writeToVectorStore store newChunks commitHash model).2.indexRecord = some rec2 ∧
      rec2.commitHash = some commitHash ∧ rec2.embeddingModel = model ∧
      rec2.status = IndexStatus.ready := by
  unfold writeToVectorStore
  cases hrec : store.indexRecord with
  | none => exact ⟨_, rfl, rfl, rfl, rfl⟩
  | some rec =>
    dsimp only
    by_cases hskip : rec.commitHash = some commitHash ∧ rec.embeddingModel = model ∧
        rec.status = IndexStatus.ready
    · rw [if_pos hskip]
      exact ⟨rec, hrec, hskip.1, hskip.2.1, hskip.2.2⟩
    · rw [if_neg hskip]
      by_cases hmodel : rec.embeddingModel ≠ model
      · rw [if_pos hmodel]
        exact ⟨_, rfl, rfl, rfl, rfl⟩
      · rw [if_neg hmodel]
        exact ⟨_, rfl, rfl, rfl, rfl⟩

/-- C3: after a first write for a repository leaves the index record ready, a
second write at the same commit hash with the same model returns strategy
`skipped` and performs zero writes — chunks and index record are unchanged. -/
theorem write_dedup_skips (store : VectorStoreState) (newChunks newChunks2 : List ChunkRow)
    (commitHash model : String)
    (hready : ((writeToVectorStore store newChunks commitHash model).2.indexRecord.map
      RepoIndexRecord.status) = some IndexStatus.ready) :
    writeToVectorStore (writeToVectorStore store newChunks commitHash model).2
        newChunks2 commitHash model =
      (WriteStrategy.skipped, (writeToVectorStore store newChunks commitHash model).2) := by
  clear hready
  rcases write_leaves_matching_ready store newChunks commitHash model with
    ⟨rec2, h, h1, h2, h3⟩
  exact write_skips_of_ready _ rec2 newChunks2 _ _ h h1 h2 h3

/-- Witness for C3: starting from an empty store, the first write upserts and
the second write at the same (commit, model) is skipped with the store
unchanged. -/
theorem write_dedup_skips_witness :
    (writeToVectorStore ⟨none, []⟩ [⟨"a.ts", 0, "code", [1]⟩] "abc" "gemini-embedding-001").2.indexRecord.map
        RepoIndexRecord.status = some IndexStatus.ready ∧
      writeToVectorStore
          (writeToVectorStore ⟨none, []⟩ [⟨"a.ts", 0, "code", [1]⟩] "abc"
            "gemini-embedding-001").2
          [⟨"a.ts", 0, "code", [1]⟩] "abc" "gemini-embedding-001" =
        (WriteStrategy.skipped,
          (writeToVectorStore ⟨none, []⟩ [⟨"a.ts", 0, "code", [1]⟩] "abc"
            "gemini-embedding-001").2) :=
  ⟨rfl,
    write_dedup_skips ⟨none, []⟩ [⟨"a.ts", 0, "code", [1]⟩] [⟨"a.ts", 0, "code", [1]⟩]
      "abc" "gemini-embedding-001" rfl⟩

end VectorStoreWriter

end OpenQuest
